import Mathlib

/-!
# Verification of the statistical-test engine (`utils_stats.py`)

Shallow embedding of the statistical-testing module of the hotel-booking
analysis repository.  Numeric data is modelled exactly: Python floats are
rational numbers, so every quantity the code computes by field arithmetic
is a `ℚ`; quantities obtained through a square root (`np.sqrt`) are reals.
Calls into SciPy routines whose numeric output is analytically opaque
(p-values of distributions, the normal quantile, the point-biserial
correlation) are modelled by an `Oracle` record of uninterpreted functions:
every theorem below holds for an arbitrary oracle, i.e. for whatever values
the library returns.

A pandas `DataFrame` column pair, as consumed by `pd.crosstab`, is modelled
by the list of row-wise value pairs; a numeric column with missing values is
a `List (Option ℚ)` (`none` = NaN, dropped by `dropna`).
-/

set_option linter.unusedSectionVars false

namespace UtilsStats

/-- Uninterpreted SciPy routines: each field returns exactly what the
corresponding library call returns (p-values and statistics are floats,
hence rationals; the normal quantile and the point-biserial coefficient
are used inside further real arithmetic, hence `ℝ`). -/
structure Oracle where
  chi2_sf : ℚ → ℕ → ℚ
  shapiro_p : List ℚ → ℚ
  levene_p : List ℚ → List ℚ → ℚ
  ttest_eq : List ℚ → List ℚ → ℚ × ℚ
  ttest_welch : List ℚ → List ℚ → ℚ × ℚ
  mannwhitney : List ℚ → List ℚ → ℚ × ℚ
  f_oneway : List (List ℚ) → ℚ × ℚ
  norm_ppf : ℚ → ℝ
  pointbiserial : List ℚ → List ℚ → ℝ

/-! ## Contingency tables (`pd.crosstab`) and `scipy.stats.chi2_contingency`

`pd.crosstab(df[var1], df[var2])` is the count matrix indexed by the
distinct observed values of the two columns.  `chi2_contingency` computes
the Pearson statistic on it, with the Yates continuity correction when
`dof == 1` (its default `correction=True`), and short-circuits to
`(chi2, p) = (0, 1)` when `dof == 0`. -/

section Contingency

variable {α β : Type*} [DecidableEq α] [DecidableEq β]

/-- Distinct observed values of the first column (the rows of the crosstab). -/
def valsA (pairs : List (α × β)) : Finset α := (pairs.map Prod.fst).toFinset

/-- Distinct observed values of the second column (the columns of the crosstab). -/
def valsB (pairs : List (α × β)) : Finset β := (pairs.map Prod.snd).toFinset

/-- Entry of the contingency table: how many rows have the pair `(u, v)`. -/
def obs (pairs : List (α × β)) (u : α) (v : β) : ℕ := pairs.count (u, v)

/-- Row marginal of the contingency table. -/
def rowTotal (pairs : List (α × β)) (u : α) : ℕ := (pairs.map Prod.fst).count u

/-- Column marginal of the contingency table. -/
def colTotal (pairs : List (α × β)) (v : β) : ℕ := (pairs.map Prod.snd).count v

/-- Grand total `n = contingency_table.sum().sum()`. -/
def nObs (pairs : List (α × β)) : ℕ := pairs.length

/-- Expected frequency under independence, `row_total * col_total / n`. -/
def expectedFreq (pairs : List (α × β)) (u : α) (v : β) : ℚ :=
  (rowTotal pairs u : ℚ) * (colTotal pairs v : ℚ) / (nObs pairs : ℚ)

/-- The Pearson chi-square statistic `Σ (O - E)^2 / E` over the table. -/
def pearsonChi2 (pairs : List (α × β)) : ℚ :=
  ∑ u ∈ valsA pairs, ∑ v ∈ valsB pairs,
    (obs pairs u v - expectedFreq pairs u v) ^ 2 / expectedFreq pairs u v

/-- One cell of the Yates-corrected statistic: SciPy moves each observed
count half a unit toward its expectation (`observed + 0.5 * sign(expected -
observed)`) before squaring, which leaves `0` where `O = E` and
`(|O - E| - 1/2)^2` elsewhere. -/
def yatesAdj (x : ℚ) : ℚ := if x = 0 then 0 else (|x| - 1/2) ^ 2

/-- The Yates-corrected chi-square statistic used by SciPy when `dof = 1`. -/
def yatesChi2 (pairs : List (α × β)) : ℚ :=
  ∑ u ∈ valsA pairs, ∑ v ∈ valsB pairs,
    yatesAdj (obs pairs u v - expectedFreq pairs u v) / expectedFreq pairs u v

/-- Degrees of freedom `(rows - 1) * (cols - 1)`. -/
def dofC (pairs : List (α × β)) : ℕ :=
  ((valsA pairs).card - 1) * ((valsB pairs).card - 1)

/-- The statistic returned by `scipy.stats.chi2_contingency` (default
`correction=True`): `0` when `dof = 0`, Yates-corrected when `dof = 1`,
plain Pearson otherwise. -/
def chi2Stat (pairs : List (α × β)) : ℚ :=
  if dofC pairs = 0 then 0
  else if dofC pairs = 1 then yatesChi2 pairs
  else pearsonChi2 pairs

/-- The p-value returned by `scipy.stats.chi2_contingency`: `1` when
`dof = 0`, otherwise the chi-square survival function at the statistic. -/
def chi2P (o : Oracle) (pairs : List (α × β)) : ℚ :=
  if dofC pairs = 0 then 1 else o.chi2_sf (chi2Stat pairs) (dofC pairs)

/-- `min(contingency_table.shape) - 1` (natural subtraction: the Python value `-1`
on an empty table also fails the `> 0` guard, as `0` does here). -/
def minDim (pairs : List (α × β)) : ℕ :=
  min (valsA pairs).card (valsB pairs).card - 1

/-- `cramers_v = np.sqrt(chi2 / (n * min_dim)) if min_dim > 0 else 0`. -/
noncomputable def cramersV (pairs : List (α × β)) : ℝ :=
  if 0 < minDim pairs then
    Real.sqrt ((chi2Stat pairs : ℝ) / (nObs pairs * minDim pairs))
  else 0

end Contingency

/-- `interpret_cramers_v`. -/
noncomputable def interpret_cramers_v (v : ℝ) : String :=
  if v < 0.1 then "Efecto despreciable"
  else if v < 0.3 then "Efecto pequeño"
  else if v < 0.5 then "Efecto mediano"
  else "Efecto grande"

/-- Result record of `perform_chi_square_test` (the `interpretation`
message and the echoed `contingency_table`, presentation-only fields, are
elided). -/
structure ChiSquareResult where
  chi2_statistic : ℚ
  p_value : ℚ
  degrees_of_freedom : ℕ
  cramers_v : ℝ
  is_significant : Bool
  effect_size : String

/-- `perform_chi_square_test(df, var1, var2)`, acting on the row-wise pairs
of the two selected columns. -/
noncomputable def perform_chi_square_test {α β : Type*} [DecidableEq α] [DecidableEq β]
    (o : Oracle) (pairs : List (α × β)) : ChiSquareResult :=
  let chi2 := chi2Stat pairs
  let p := chi2P o pairs
  { chi2_statistic := chi2
    p_value := p
    degrees_of_freedom := dofC pairs
    cramers_v := cramersV pairs
    is_significant := decide (p < 0.05)
    effect_size := interpret_cramers_v (cramersV pairs) }

/-! ## `perform_t_test`

The two-column slice `(df[group_var], df[numeric_var])` is modelled as a
list of `(group label, optional numeric value)` rows; `dropna` discards the
`none`s.  pandas moments with `ddof = 1` are NaN on degenerate inputs
(mean of an empty series, std of fewer than two observations), modelled by
`Option` (`none` = NaN); a NaN pooled deviation fails the `> 0` guard in
the source exactly as `none` does here. -/

/-- `df[df[group_var] == g][numeric_var].dropna()`. -/
def groupData (rows : List (String × Option ℚ)) (g : String) : List ℚ :=
  (rows.filter (fun r => r.1 = g)).filterMap Prod.snd

/-- pandas `Series.mean()`: NaN (`none`) on an empty series. -/
def meanOpt (xs : List ℚ) : Option ℚ :=
  if xs.length = 0 then none else some (xs.sum / xs.length)

/-- Square of pandas `Series.std()` (`ddof = 1`): NaN (`none`) on fewer
than two observations. -/
def sampleVar (xs : List ℚ) : Option ℚ :=
  if xs.length ≤ 1 then none
  else some ((xs.map (fun x => (x - xs.sum / xs.length) ^ 2)).sum / ((xs.length : ℚ) - 1))

/-- `pooled_std**2 = (std1**2 + std2**2) / 2`, NaN-propagating. -/
def pooledVar (xs ys : List ℚ) : Option ℚ :=
  match sampleVar xs, sampleVar ys with
  | some a, some b => some ((a + b) / 2)
  | _, _ => none

/-- `cohens_d = (mean1 - mean2) / pooled_std if pooled_std > 0 else 0`;
the guard also absorbs the NaN cases (`NaN > 0` is false in Python). -/
noncomputable def cohensD (xs ys : List ℚ) : ℝ :=
  match pooledVar xs ys, meanOpt xs, meanOpt ys with
  | some v, some m1, some m2 =>
      if 0 < Real.sqrt (v : ℝ) then ((m1 : ℚ) - (m2 : ℚ) : ℚ) / Real.sqrt (v : ℝ) else 0
  | _, _, _ => 0

/-- `interpret_cohens_d`. -/
noncomputable def interpret_cohens_d (d : ℝ) : String :=
  if d < 0.2 then "Efecto despreciable"
  else if d < 0.5 then "Efecto pequeño"
  else if d < 0.8 then "Efecto mediano"
  else "Efecto grande"

/-- Result record of `perform_t_test` (the `interpretation` message is
elided; pandas-NaN-valued moments are `none`). -/
structure TTestResult where
  test_type : String
  statistic : ℚ
  p_value : ℚ
  mean_group1 : Option ℚ
  mean_group2 : Option ℚ
  std_group1 : Option ℝ
  std_group2 : Option ℝ
  cohens_d : ℝ
  effect_size : String
  is_significant : Bool
  n_group1 : ℕ
  n_group2 : ℕ

/-- `perform_t_test(df, numeric_var, group_var, group1, group2)`.  The
Shapiro normality check is skipped (its p-value hard-coded to 1) for a
group of 5000 or more observations; Python tests the float `p_norm` for
truthiness (`≠ 0`) and then `> 0.05`. -/
noncomputable def perform_t_test (o : Oracle) (rows : List (String × Option ℚ))
    (group1 group2 : String) : TTestResult :=
  let data1 := groupData rows group1
  let data2 := groupData rows group2
  let p_norm1 : ℚ := if data1.length < 5000 then o.shapiro_p data1 else 1
  let p_norm2 : ℚ := if data2.length < 5000 then o.shapiro_p data2 else 1
  let p_levene := o.levene_p data1 data2
  let res : ℚ × ℚ × String :=
    if p_norm1 ≠ 0 ∧ p_norm2 ≠ 0 ∧ p_norm1 > 0.05 ∧ p_norm2 > 0.05 then
      if p_levene > 0.05 then
        ((o.ttest_eq data1 data2).1, (o.ttest_eq data1 data2).2,
          "T-test (varianzas iguales)")
      else
        ((o.ttest_welch data1 data2).1, (o.ttest_welch data1 data2).2,
          "T-test de Welch (varianzas diferentes)")
    else
      ((o.mannwhitney data1 data2).1, (o.mannwhitney data1 data2).2,
        "Mann-Whitney U")
  { test_type := res.2.2
    statistic := res.1
    p_value := res.2.1
    mean_group1 := meanOpt data1
    mean_group2 := meanOpt data2
    std_group1 := (sampleVar data1).map (fun v => Real.sqrt (v : ℝ))
    std_group2 := (sampleVar data2).map (fun v => Real.sqrt (v : ℝ))
    cohens_d := cohensD data1 data2
    effect_size := interpret_cohens_d |cohensD data1 data2|
    is_significant := decide (res.2.1 < 0.05)
    n_group1 := data1.length
    n_group2 := data2.length }

/-! ## `perform_anova`

The slice `(df[group_var], df[numeric_var])` is a list of
`(optional group key, optional numeric value)` rows.  `groupby` drops rows
with a missing key; the numeric values of each group are `dropna`-ed, while the
grand mean is pandas `df[numeric_var].mean()` over the whole column
(missing-key rows included). pandas sorts the group keys; no claim below
depends on group order, so first-occurrence order is used. -/

/-- Distinct non-null group keys. -/
def groupKeys (rows : List (Option String × Option ℚ)) : List String :=
  (rows.filterMap Prod.fst).dedup

/-- The numeric sample of one group, missing values dropped. -/
def anovaGroup (rows : List (Option String × Option ℚ)) (g : String) : List ℚ :=
  (rows.filter (fun r => r.1 = some g)).filterMap Prod.snd

/-- The labelled per-group samples produced by the `groupby` loop. -/
def anovaGroups (rows : List (Option String × Option ℚ)) : List (String × List ℚ) :=
  (groupKeys rows).map fun g => (g, anovaGroup rows g)

/-- Plain mean `xs.sum / len(xs)` (on the empty list the Lean convention `0 / 0 = 0`
stands in for the pandas NaN; every claim that touches a mean guards against
the empty case). -/
def listMean (xs : List ℚ) : ℚ := xs.sum / xs.length

/-- `grand_mean = df[numeric_var].mean()`. -/
def grandMean (rows : List (Option String × Option ℚ)) : ℚ :=
  listMean (rows.filterMap Prod.snd)

/-- `ss_between = sum(len(g) * (g.mean() - grand_mean)**2 for g in groups)`. -/
def ssBetween (rows : List (Option String × Option ℚ)) : ℚ :=
  ((anovaGroups rows).map fun gv =>
    (gv.2.length : ℚ) * (listMean gv.2 - grandMean rows) ^ 2).sum

/-- `ss_total = sum((x - grand_mean)**2 for g in groups for x in g)`. -/
def ssTotal (rows : List (Option String × Option ℚ)) : ℚ :=
  ((anovaGroups rows).map fun gv =>
    (gv.2.map fun x => (x - grandMean rows) ^ 2).sum).sum

/-- `eta_squared = ss_between / ss_total if ss_total > 0 else 0`. -/
def etaSquared (rows : List (Option String × Option ℚ)) : ℚ :=
  if 0 < ssTotal rows then ssBetween rows / ssTotal rows else 0

/-- `interpret_eta_squared`. -/
def interpret_eta_squared (eta2 : ℚ) : String :=
  if eta2 < 0.01 then "Efecto despreciable"
  else if eta2 < 0.06 then "Efecto pequeño"
  else if eta2 < 0.14 then "Efecto mediano"
  else "Efecto grande"

/-- pandas `Series.median()`: middle element of the sorted values, or the
average of the two middle ones (`0` stands in for NaN on an empty list;
claims guard the degenerate case). -/
def listMedian (xs : List ℚ) : ℚ :=
  let s := xs.mergeSort fun a b => decide (a ≤ b)
  if xs.length = 0 then 0
  else if xs.length % 2 = 1 then s.getD (xs.length / 2) 0
  else (s.getD (xs.length / 2 - 1) 0 + s.getD (xs.length / 2) 0) / 2

/-- Row of the per-group descriptive table returned by `perform_anova`. -/
structure AnovaGroupStat where
  group : String
  n : ℕ
  mean : Option ℚ
  std : Option ℝ
  median : ℚ

/-- Result record of `perform_anova` (`interpretation` elided). -/
structure AnovaResult where
  f_statistic : ℚ
  p_value : ℚ
  eta_squared : ℚ
  effect_size : String
  is_significant : Bool
  group_stats : List AnovaGroupStat
  n_groups : ℕ

/-- `perform_anova(df, numeric_var, group_var)`. -/
noncomputable def perform_anova (o : Oracle)
    (rows : List (Option String × Option ℚ)) : AnovaResult :=
  let groups := anovaGroups rows
  let fp := o.f_oneway (groups.map Prod.snd)
  { f_statistic := fp.1
    p_value := fp.2
    eta_squared := etaSquared rows
    effect_size := interpret_eta_squared (etaSquared rows)
    is_significant := decide (fp.2 < 0.05)
    group_stats := groups.map fun gv =>
      { group := gv.1
        n := gv.2.length
        mean := meanOpt gv.2
        std := (sampleVar gv.2).map fun v => Real.sqrt (v : ℝ)
        median := listMedian gv.2 }
    n_groups := groups.length }

/-! ## `calculate_proportion_ci` -/

/-- `calculate_proportion_ci(successes, total, confidence)`: the
normal-approximation interval clipped to `[0, 1]`, and `(0, 0)` when
`total == 0`.  The normal quantile `stats.norm.ppf` is oracle-supplied. -/
noncomputable def calculate_proportion_ci (o : Oracle)
    (successes total : ℕ) (confidence : ℚ) : ℝ × ℝ :=
  if total = 0 then (0, 0)
  else
    let p : ℚ := (successes : ℚ) / (total : ℚ)
    let z : ℝ := o.norm_ppf (1 - (1 - confidence) / 2)
    let se : ℝ := Real.sqrt ((p : ℝ) * (1 - (p : ℝ)) / (total : ℝ))
    (max 0 ((p : ℝ) - z * se), min 1 ((p : ℝ) + z * se))

/-! ## `calculate_business_metrics`

A booking row carries the columns the function reads (`adr` and
`total_stay_nights` are present in the dataset of this repository, so the
`in df.columns` guards take their true branch). -/

structure BookingRow where
  hotel : String
  is_canceled : ℕ
  lead_time : ℚ
  adr : ℚ
  total_stay_nights : ℚ

/-- The metrics mapping; the dynamically-keyed per-hotel entries are
total functions of the hotel label. -/
structure BusinessMetrics where
  total_bookings : ℕ
  cancellation_rate : ℚ
  avg_lead_time : ℚ
  avg_adr : ℚ
  hotel_cancellation_rate : String → ℚ
  hotel_avg_adr : String → ℚ
  potential_revenue_loss : ℚ
  estimated_occupancy_rate : ℚ

/-- `calculate_business_metrics(df)`. -/
def calculate_business_metrics (df : List BookingRow) : BusinessMetrics :=
  let canceled := df.filter fun r => r.is_canceled = 1
  let totalNights := (df.map fun r => r.total_stay_nights).sum
  let canceledNights := (canceled.map fun r => r.total_stay_nights).sum
  { total_bookings := df.length
    cancellation_rate := listMean (df.map fun r => (r.is_canceled : ℚ))
    avg_lead_time := listMean (df.map fun r => r.lead_time)
    avg_adr := listMean ((df.filter fun r => 0 < r.adr).map fun r => r.adr)
    hotel_cancellation_rate := fun h =>
      listMean ((df.filter fun r => r.hotel = h).map fun r => (r.is_canceled : ℚ))
    hotel_avg_adr := fun h =>
      listMean (((df.filter fun r => r.hotel = h).filter fun r => 0 < r.adr).map
        fun r => r.adr)
    potential_revenue_loss := (canceled.map fun r => r.adr * r.total_stay_nights).sum
    estimated_occupancy_rate :=
      if 0 < totalNights then (totalNights - canceledNights) / totalNights else 0 }

/-! ## `analyze_feature_importance`

A candidate feature column is either categorical (dtype `object`/
`category`) or numeric, mirroring the dtype dispatch of the source. -/

inductive FeatureCol where
  | cat (name : String) (values : List String)
  | num (name : String) (values : List (Option ℚ))

/-- `df[feature].fillna(df[feature].median())`. -/
def fillnaMedian (col : List (Option ℚ)) : List ℚ :=
  col.map fun x => x.getD (listMedian (col.filterMap id))

/-- `interpret_importance_score`. -/
noncomputable def interpret_importance_score (score : ℝ) : String :=
  if score < 0.1 then "Muy baja"
  else if score < 0.3 then "Baja"
  else if score < 0.5 then "Moderada"
  else if score < 0.7 then "Alta"
  else "Muy alta"

/-- One row of the importance table. -/
structure ImportanceRow where
  feature : String
  importance_score : ℝ
  test_type : String
  interpretation : String

/-- One loop iteration of `analyze_feature_importance`: the Cramér V statistic against
the target for a categorical feature, the absolute point-biserial
correlation after median imputation for a numeric one. -/
noncomputable def scoreRow (o : Oracle) (target : List ℚ) : FeatureCol → ImportanceRow
  | .cat name vals =>
      let r := perform_chi_square_test o (vals.zip target)
      { feature := name
        importance_score := r.cramers_v
        test_type := "Cramér\x27s V"
        interpretation := interpret_importance_score r.cramers_v }
  | .num name vals =>
      let score := |o.pointbiserial target (fillnaMedian vals)|
      { feature := name
        importance_score := score
        test_type := "Correlación"
        interpretation := interpret_importance_score score }

/-- `analyze_feature_importance(df, target, features)`: score every
feature, then the descending `sort_values` on the importance score. -/
noncomputable def analyze_feature_importance (o : Oracle) (target : List ℚ)
    (features : List FeatureCol) : List ImportanceRow :=
  (features.map (scoreRow o target)).mergeSort
    fun a b => decide (b.importance_score ≤ a.importance_score)

/-- A data-frame row restricted to its categorical columns, and the
row-wise column pairs consumed by `pd.crosstab(df[a], df[b])`. -/
def colPairs (df : List (String → String)) (a b : String) : List (String × String) :=
  df.map fun r => (r a, r b)

/-- A concrete oracle used to evaluate the theorems on concrete inputs:
every library call returns the fixed p-value `1/2` (statistics `0`). -/
noncomputable def trivOracle : Oracle where
  chi2_sf := fun _ _ => 1 / 2
  shapiro_p := fun _ => 1 / 2
  levene_p := fun _ _ => 1 / 2
  ttest_eq := fun _ _ => (0, 1 / 2)
  ttest_welch := fun _ _ => (0, 1 / 2)
  mannwhitney := fun _ _ => (0, 1 / 2)
  f_oneway := fun _ => (0, 1 / 2)
  norm_ppf := fun _ => 2
  pointbiserial := fun _ _ => 0

section ContingencyLemmas

variable {α β : Type*} [DecidableEq α] [DecidableEq β]

/-- Counting every value of a list over any index set containing all of its
elements recovers the length. -/
lemma sum_count_eq_length {γ : Type*} [DecidableEq γ] (l : List γ) (S : Finset γ)
    (h : ∀ x ∈ l, x ∈ S) : ∑ v ∈ S, l.count v = l.length := by
  induction l with
  | nil => simp
  | cons a t ih =>
    have ha : a ∈ S := h a (List.mem_cons_self a t)
    have ht : ∀ x ∈ t, x ∈ S := fun x hx => h x (List.mem_cons_of_mem a hx)
    have hone : ∑ v ∈ S, (if a == v then 1 else 0) = 1 := by
      simp only [beq_iff_eq]
      rw [Finset.sum_ite_eq S a (fun _ => 1)]
      simp [ha]
    simp only [List.count_cons, List.length_cons]
    rw [Finset.sum_add_distrib, ih ht, hone]

lemma snd_mem_valsB (pairs : List (α × β)) {p : α × β} (hp : p ∈ pairs) :
    p.2 ∈ valsB pairs := by
  simp only [valsB, List.mem_toFinset, List.mem_map]
  exact ⟨p, hp, rfl⟩

lemma fst_mem_valsA (pairs : List (α × β)) {p : α × β} (hp : p ∈ pairs) :
    p.1 ∈ valsA pairs := by
  simp only [valsA, List.mem_toFinset, List.mem_map]
  exact ⟨p, hp, rfl⟩

/-- The contingency entry as a count over the rows of the fibre of the first
column value. -/
lemma obs_eq_count_filter (pairs : List (α × β)) (u : α) (v : β) :
    obs pairs u v = ((pairs.filter (fun p => p.1 = u)).map Prod.snd).count v := by
  simp only [obs, List.count, List.countP_map, List.countP_filter]
  refine List.countP_congr fun p _ => ?_
  simp only [Function.comp_apply, beq_iff_eq, Bool.and_eq_true, decide_eq_true_eq]
  constructor
  · rintro rfl; exact ⟨rfl, rfl⟩
  · rintro ⟨h1, h2⟩; exact Prod.ext h2 h1

lemma rowTotal_eq_length_filter (pairs : List (α × β)) (u : α) :
    rowTotal pairs u = (pairs.filter (fun p => p.1 = u)).length := by
  rw [← List.countP_eq_length_filter]
  simp only [rowTotal, List.count, List.countP_map]
  refine List.countP_congr fun p _ => ?_
  simp [Function.comp_apply, beq_iff_eq]

/-- Row marginal: summing the contingency entries of a row over the
observed column values gives the row total. -/
lemma sum_obs_row (pairs : List (α × β)) (u : α) :
    ∑ v ∈ valsB pairs, obs pairs u v = rowTotal pairs u := by
  have h : ∀ x ∈ (pairs.filter (fun p => p.1 = u)).map Prod.snd, x ∈ valsB pairs := by
    intro x hx
    rcases List.mem_map.mp hx with ⟨p, hp, rfl⟩
    exact snd_mem_valsB pairs (List.mem_of_mem_filter hp)
  calc ∑ v ∈ valsB pairs, obs pairs u v
      = ∑ v ∈ valsB pairs, ((pairs.filter (fun p => p.1 = u)).map Prod.snd).count v :=
        Finset.sum_congr rfl fun v _ => obs_eq_count_filter pairs u v
    _ = ((pairs.filter (fun p => p.1 = u)).map Prod.snd).length :=
        sum_count_eq_length _ _ h
    _ = rowTotal pairs u := by rw [List.length_map, ← rowTotal_eq_length_filter]

/-- Summing the row totals over the observed row values gives `n`. -/
lemma sum_rowTotal (pairs : List (α × β)) :
    ∑ u ∈ valsA pairs, rowTotal pairs u = nObs pairs := by
  have h : ∀ x ∈ pairs.map Prod.fst, x ∈ valsA pairs := by
    intro x hx; simpa [valsA, List.mem_toFinset] using hx
  have := sum_count_eq_length (pairs.map Prod.fst) (valsA pairs) h
  simpa [rowTotal, nObs, List.length_map] using this

lemma sum_colTotal (pairs : List (α × β)) :
    ∑ v ∈ valsB pairs, colTotal pairs v = nObs pairs := by
  have h : ∀ x ∈ pairs.map Prod.snd, x ∈ valsB pairs := by
    intro x hx; simpa [valsB, List.mem_toFinset] using hx
  have := sum_count_eq_length (pairs.map Prod.snd) (valsB pairs) h
  simpa [colTotal, nObs, List.length_map] using this

lemma rowTotal_pos (pairs : List (α × β)) {u : α} (hu : u ∈ valsA pairs) :
    0 < rowTotal pairs u := by
  simp only [valsA, List.mem_toFinset] at hu
  simpa [rowTotal] using List.count_pos_iff.mpr hu

lemma colTotal_pos (pairs : List (α × β)) {v : β} (hv : v ∈ valsB pairs) :
    0 < colTotal pairs v := by
  simp only [valsB, List.mem_toFinset] at hv
  simpa [colTotal] using List.count_pos_iff.mpr hv

lemma obs_le_colTotal (pairs : List (α × β)) (u : α) (v : β) :
    obs pairs u v ≤ colTotal pairs v := by
  simp only [obs, colTotal, List.count, List.countP_map]
  refine List.countP_mono_left fun p _ hp => ?_
  simp only [beq_iff_eq] at hp
  simp [Function.comp_apply, hp]

lemma obs_le_rowTotal (pairs : List (α × β)) (u : α) (v : β) :
    obs pairs u v ≤ rowTotal pairs u := by
  simp only [obs, rowTotal, List.count, List.countP_map]
  refine List.countP_mono_left fun p _ hp => ?_
  simp only [beq_iff_eq] at hp
  simp [Function.comp_apply, hp]

lemma nObs_pos (pairs : List (α × β)) (hne : pairs ≠ []) : 0 < nObs pairs :=
  List.length_pos.mpr hne

/-- Expected frequencies are positive on observed cells (the reason the
SciPy call never hits its zero-expected-frequency error on a crosstab). -/
lemma expectedFreq_pos (pairs : List (α × β)) {u : α} {v : β}
    (hu : u ∈ valsA pairs) (hv : v ∈ valsB pairs) :
    0 < expectedFreq pairs u v := by
  have hn : 0 < nObs pairs := by
    rcases List.mem_toFinset.mp hu with hm
    rcases List.mem_map.mp hm with ⟨p, hp, rfl⟩
    exact List.length_pos.mpr (List.ne_nil_of_mem hp)
  have hr := rowTotal_pos pairs hu
  have hc := colTotal_pos pairs hv
  apply div_pos
  · exact mul_pos (by exact_mod_cast hr) (by exact_mod_cast hc)
  · exact_mod_cast hn

end ContingencyLemmas

section PearsonBound

variable {α β : Type*} [DecidableEq α] [DecidableEq β]

lemma sum_obs_all (pairs : List (α × β)) :
    ∑ u ∈ valsA pairs, ∑ v ∈ valsB pairs, obs pairs u v = nObs pairs := by
  calc ∑ u ∈ valsA pairs, ∑ v ∈ valsB pairs, obs pairs u v
      = ∑ u ∈ valsA pairs, rowTotal pairs u :=
        Finset.sum_congr rfl fun u _ => sum_obs_row pairs u
    _ = nObs pairs := sum_rowTotal pairs

lemma sum_expectedFreq (pairs : List (α × β)) (hne : pairs ≠ []) :
    ∑ u ∈ valsA pairs, ∑ v ∈ valsB pairs, expectedFreq pairs u v = (nObs pairs : ℚ) := by
  have hn : (0 : ℚ) < (nObs pairs : ℚ) := by exact_mod_cast nObs_pos pairs hne
  have hinner : ∀ u ∈ valsA pairs,
      ∑ v ∈ valsB pairs, expectedFreq pairs u v = (rowTotal pairs u : ℚ) := by
    intro u _
    have : ∑ v ∈ valsB pairs, expectedFreq pairs u v
        = (rowTotal pairs u : ℚ) * (∑ v ∈ valsB pairs, (colTotal pairs v : ℚ)) / nObs pairs := by
      rw [Finset.mul_sum, Finset.sum_div]
      exact Finset.sum_congr rfl fun v _ => rfl
    rw [this]
    have hc : ∑ v ∈ valsB pairs, (colTotal pairs v : ℚ) = (nObs pairs : ℚ) := by
      exact_mod_cast congrArg (Nat.cast (R := ℚ)) (sum_colTotal pairs)
    rw [hc, mul_div_assoc, div_self hn.ne', mul_one]
  rw [Finset.sum_congr rfl hinner]
  exact_mod_cast congrArg (Nat.cast (R := ℚ)) (sum_rowTotal pairs)

/-- The expansion `Σ (O-E)²/E = Σ O²/E - n` of the Pearson statistic. -/
lemma pearsonChi2_eq (pairs : List (α × β)) (hne : pairs ≠ []) :
    pearsonChi2 pairs
      = (∑ u ∈ valsA pairs, ∑ v ∈ valsB pairs,
          (obs pairs u v : ℚ) ^ 2 / expectedFreq pairs u v) - nObs pairs := by
  have hcell : ∀ u ∈ valsA pairs, ∀ v ∈ valsB pairs,
      (obs pairs u v - expectedFreq pairs u v) ^ 2 / expectedFreq pairs u v
        = (obs pairs u v : ℚ) ^ 2 / expectedFreq pairs u v
            - 2 * obs pairs u v + expectedFreq pairs u v := by
    intro u hu v hv
    have hE := expectedFreq_pos pairs hu hv
    field_simp
    ring
  have hobs : ∑ u ∈ valsA pairs, ∑ v ∈ valsB pairs, (obs pairs u v : ℚ) = (nObs pairs : ℚ) := by
    exact_mod_cast congrArg (Nat.cast (R := ℚ)) (sum_obs_all pairs)
  calc pearsonChi2 pairs
      = ∑ u ∈ valsA pairs, ∑ v ∈ valsB pairs,
          ((obs pairs u v : ℚ) ^ 2 / expectedFreq pairs u v
            - 2 * obs pairs u v + expectedFreq pairs u v) := by
        refine Finset.sum_congr rfl fun u hu => Finset.sum_congr rfl fun v hv => ?_
        exact hcell u hu v hv
    _ = (∑ u ∈ valsA pairs, ∑ v ∈ valsB pairs,
          (obs pairs u v : ℚ) ^ 2 / expectedFreq pairs u v)
        - 2 * (∑ u ∈ valsA pairs, ∑ v ∈ valsB pairs, (obs pairs u v : ℚ))
        + ∑ u ∈ valsA pairs, ∑ v ∈ valsB pairs, expectedFreq pairs u v := by
        simp only [Finset.sum_add_distrib, Finset.sum_sub_distrib, Finset.mul_sum]
    _ = _ := by rw [hobs, sum_expectedFreq pairs hne]; ring

/-- Per observed row value, `Σ_v O²/E ≤ n`. -/
lemma sum_obs_sq_div_row (pairs : List (α × β)) (hne : pairs ≠ [])
    {u : α} (hu : u ∈ valsA pairs) :
    ∑ v ∈ valsB pairs, (obs pairs u v : ℚ) ^ 2 / expectedFreq pairs u v
      ≤ (nObs pairs : ℚ) := by
  have hn : (0 : ℚ) < (nObs pairs : ℚ) := by exact_mod_cast nObs_pos pairs hne
  have hR : (0 : ℚ) < (rowTotal pairs u : ℚ) := by exact_mod_cast rowTotal_pos pairs hu
  have hstep : ∀ v ∈ valsB pairs,
      (obs pairs u v : ℚ) ^ 2 / expectedFreq pairs u v
        ≤ (obs pairs u v : ℚ) * nObs pairs / rowTotal pairs u := by
    intro v hv
    have hC : (0 : ℚ) < (colTotal pairs v : ℚ) := by exact_mod_cast colTotal_pos pairs hv
    have hOC : (obs pairs u v : ℚ) ≤ (colTotal pairs v : ℚ) := by
      exact_mod_cast obs_le_colTotal pairs u v
    have hO : (0 : ℚ) ≤ (obs pairs u v : ℚ) := by positivity
    rw [expectedFreq, div_div_eq_mul_div, div_le_div_iff₀ (by positivity) hR]
    have hkey := mul_le_mul_of_nonneg_left hOC
      (show (0 : ℚ) ≤ (obs pairs u v : ℚ) * nObs pairs * rowTotal pairs u by positivity)
    nlinarith [hkey]
  calc ∑ v ∈ valsB pairs, (obs pairs u v : ℚ) ^ 2 / expectedFreq pairs u v
      ≤ ∑ v ∈ valsB pairs, (obs pairs u v : ℚ) * nObs pairs / rowTotal pairs u :=
        Finset.sum_le_sum hstep
    _ = (∑ v ∈ valsB pairs, (obs pairs u v : ℚ)) * nObs pairs / rowTotal pairs u := by
        rw [← Finset.sum_div, ← Finset.sum_mul]
    _ = (rowTotal pairs u : ℚ) * nObs pairs / rowTotal pairs u := by
        congr 2
        exact_mod_cast congrArg (Nat.cast (R := ℚ)) (sum_obs_row pairs u)
    _ = (nObs pairs : ℚ) := by
        rw [mul_comm, mul_div_assoc, div_self hR.ne', mul_one]

/-- The classical bound `chi2 ≤ n * (rows - 1)` for the Pearson statistic of
a contingency table whose margins are all positive. -/
lemma pearsonChi2_le_rows (pairs : List (α × β)) (hne : pairs ≠ []) :
    pearsonChi2 pairs ≤ (nObs pairs : ℚ) * ((valsA pairs).card - 1) := by
  have hn : (0 : ℚ) < (nObs pairs : ℚ) := by exact_mod_cast nObs_pos pairs hne
  rw [pearsonChi2_eq pairs hne]
  have hsum : ∑ u ∈ valsA pairs, ∑ v ∈ valsB pairs,
      (obs pairs u v : ℚ) ^ 2 / expectedFreq pairs u v
        ≤ ((valsA pairs).card : ℚ) * nObs pairs := by
    calc ∑ u ∈ valsA pairs, ∑ v ∈ valsB pairs,
        (obs pairs u v : ℚ) ^ 2 / expectedFreq pairs u v
        ≤ ∑ _u ∈ valsA pairs, (nObs pairs : ℚ) :=
          Finset.sum_le_sum fun u hu => sum_obs_sq_div_row pairs hne hu
      _ = ((valsA pairs).card : ℚ) * nObs pairs := by
          rw [Finset.sum_const, nsmul_eq_mul]
  nlinarith [hsum]

lemma pearsonChi2_nonneg (pairs : List (α × β)) : 0 ≤ pearsonChi2 pairs := by
  refine Finset.sum_nonneg fun u hu => Finset.sum_nonneg fun v hv => ?_
  have hE := expectedFreq_pos pairs hu hv
  positivity

lemma yatesAdj_nonneg (x : ℚ) : 0 ≤ yatesAdj x := by
  unfold yatesAdj
  split
  · exact le_refl 0
  · positivity

lemma yatesChi2_nonneg (pairs : List (α × β)) : 0 ≤ yatesChi2 pairs := by
  refine Finset.sum_nonneg fun u hu => Finset.sum_nonneg fun v hv => ?_
  have hE := expectedFreq_pos pairs hu hv
  exact div_nonneg (yatesAdj_nonneg _) hE.le

end PearsonBound

section Transpose

variable {α β : Type*} [DecidableEq α] [DecidableEq β]

lemma valsA_swap (pairs : List (α × β)) :
    valsA (pairs.map Prod.swap) = valsB pairs := by
  simp [valsA, valsB, List.map_map, Function.comp_def]

lemma valsB_swap (pairs : List (α × β)) :
    valsB (pairs.map Prod.swap) = valsA pairs := by
  simp [valsA, valsB, List.map_map, Function.comp_def]

lemma obs_swap (pairs : List (α × β)) (u : α) (v : β) :
    obs (pairs.map Prod.swap) v u = obs pairs u v := by
  simp only [obs, List.count, List.countP_map]
  refine List.countP_congr fun p _ => ?_
  simp only [Function.comp_apply, beq_iff_eq, Prod.ext_iff, Prod.fst_swap, Prod.snd_swap]
  tauto

lemma rowTotal_swap (pairs : List (α × β)) (v : β) :
    rowTotal (pairs.map Prod.swap) v = colTotal pairs v := by
  simp [rowTotal, colTotal, List.map_map, Function.comp_def]

lemma colTotal_swap (pairs : List (α × β)) (u : α) :
    colTotal (pairs.map Prod.swap) u = rowTotal pairs u := by
  simp [rowTotal, colTotal, List.map_map, Function.comp_def]

lemma nObs_swap (pairs : List (α × β)) : nObs (pairs.map Prod.swap) = nObs pairs := by
  simp [nObs]

lemma expectedFreq_swap (pairs : List (α × β)) (u : α) (v : β) :
    expectedFreq (pairs.map Prod.swap) v u = expectedFreq pairs u v := by
  rw [expectedFreq, expectedFreq, rowTotal_swap, colTotal_swap, nObs_swap, mul_comm]

/-- The Pearson statistic is invariant under transposing the table. -/
lemma pearsonChi2_swap (pairs : List (α × β)) :
    pearsonChi2 (pairs.map Prod.swap) = pearsonChi2 pairs := by
  rw [pearsonChi2, valsA_swap, valsB_swap, Finset.sum_comm]
  refine Finset.sum_congr rfl fun u _ => Finset.sum_congr rfl fun v _ => ?_
  rw [obs_swap, expectedFreq_swap]

/-- The Yates-corrected statistic is invariant under transposing. -/
lemma yatesChi2_swap (pairs : List (α × β)) :
    yatesChi2 (pairs.map Prod.swap) = yatesChi2 pairs := by
  rw [yatesChi2, valsA_swap, valsB_swap, Finset.sum_comm]
  refine Finset.sum_congr rfl fun u _ => Finset.sum_congr rfl fun v _ => ?_
  rw [obs_swap, expectedFreq_swap]

lemma dofC_swap (pairs : List (α × β)) : dofC (pairs.map Prod.swap) = dofC pairs := by
  rw [dofC, dofC, valsA_swap, valsB_swap, Nat.mul_comm]

lemma minDim_swap (pairs : List (α × β)) : minDim (pairs.map Prod.swap) = minDim pairs := by
  rw [minDim, minDim, valsA_swap, valsB_swap, Nat.min_comm]

lemma chi2Stat_swap (pairs : List (α × β)) :
    chi2Stat (pairs.map Prod.swap) = chi2Stat pairs := by
  rw [chi2Stat, chi2Stat, dofC_swap, pearsonChi2_swap, yatesChi2_swap]

lemma chi2P_swap (o : Oracle) (pairs : List (α × β)) :
    chi2P o (pairs.map Prod.swap) = chi2P o pairs := by
  rw [chi2P, chi2P, dofC_swap, chi2Stat_swap]

lemma cramersV_swap (pairs : List (α × β)) :
    cramersV (pairs.map Prod.swap) = cramersV pairs := by
  rw [cramersV, cramersV, minDim_swap, chi2Stat_swap, nObs_swap]

/-- The column-side version of the Pearson bound. -/
lemma pearsonChi2_le_cols (pairs : List (α × β)) (hne : pairs ≠ []) :
    pearsonChi2 pairs ≤ (nObs pairs : ℚ) * ((valsB pairs).card - 1) := by
  have hne' : pairs.map Prod.swap ≠ [] := by
    simpa using hne
  have := pearsonChi2_le_rows (pairs.map Prod.swap) hne'
  rwa [pearsonChi2_swap, valsA_swap, nObs_swap] at this

end Transpose

section YatesBound

variable {α β : Type*} [DecidableEq α] [DecidableEq β]

lemma sum_obs_col (pairs : List (α × β)) (v : β) :
    ∑ u ∈ valsA pairs, obs pairs u v = colTotal pairs v := by
  have h := sum_obs_row (pairs.map Prod.swap) v
  rw [valsB_swap, rowTotal_swap] at h
  rw [← h]
  exact Finset.sum_congr rfl fun u _ => (obs_swap pairs u v).symm

lemma div_le_div_same_pos {a b c : ℚ} (h : a ≤ b) (hc : 0 < c) : a / c ≤ b / c := by
  rw [div_eq_mul_inv, div_eq_mul_inv]
  exact mul_le_mul_of_nonneg_right h (inv_nonneg.mpr hc.le)

lemma yatesAdj_neg (x : ℚ) : yatesAdj (-x) = yatesAdj x := by
  unfold yatesAdj
  simp [neg_eq_zero, abs_neg]

lemma yatesAdj_le_sq {x : ℚ} (hx : 1 / 2 ≤ |x|) : yatesAdj x ≤ x ^ 2 := by
  unfold yatesAdj
  split
  · positivity
  · calc (|x| - 1 / 2) ^ 2 ≤ |x| ^ 2 := by nlinarith [abs_nonneg x]
      _ = x ^ 2 := sq_abs x

lemma yatesAdj_le_quarter {x : ℚ} (hx : |x| ≤ 1 / 2) : yatesAdj x ≤ 1 / 4 := by
  unfold yatesAdj
  split
  · norm_num
  · nlinarith [abs_nonneg x]

set_option maxHeartbeats 1000000 in
/-- The Yates-corrected statistic of a 2×2 contingency table with positive
margins is at most `n`; this is the `dof = 1` case of the Cramér bound. -/
lemma yatesChi2_le (pairs : List (α × β))
    (hA : (valsA pairs).card = 2) (hB : (valsB pairs).card = 2) :
    yatesChi2 pairs ≤ (nObs pairs : ℚ) := by
  obtain ⟨a₁, a₂, hane, hAeq⟩ := Finset.card_eq_two.mp hA
  obtain ⟨b₁, b₂, hbne, hBeq⟩ := Finset.card_eq_two.mp hB
  have ha₁ : a₁ ∈ valsA pairs := by rw [hAeq]; simp
  have ha₂ : a₂ ∈ valsA pairs := by rw [hAeq]; simp
  have hb₁ : b₁ ∈ valsB pairs := by rw [hBeq]; simp
  have hb₂ : b₂ ∈ valsB pairs := by rw [hBeq]; simp
  have hR₁pos : (0 : ℚ) < (rowTotal pairs a₁ : ℚ) := by
    exact_mod_cast rowTotal_pos pairs ha₁
  have hR₂pos : (0 : ℚ) < (rowTotal pairs a₂ : ℚ) := by
    exact_mod_cast rowTotal_pos pairs ha₂
  have hC₁pos : (0 : ℚ) < (colTotal pairs b₁ : ℚ) := by
    exact_mod_cast colTotal_pos pairs hb₁
  have hC₂pos : (0 : ℚ) < (colTotal pairs b₂ : ℚ) := by
    exact_mod_cast colTotal_pos pairs hb₂
  have hR₁one : (1 : ℚ) ≤ (rowTotal pairs a₁ : ℚ) := by
    exact_mod_cast rowTotal_pos pairs ha₁
  have hR₂one : (1 : ℚ) ≤ (rowTotal pairs a₂ : ℚ) := by
    exact_mod_cast rowTotal_pos pairs ha₂
  have hC₁one : (1 : ℚ) ≤ (colTotal pairs b₁ : ℚ) := by
    exact_mod_cast colTotal_pos pairs hb₁
  have hC₂one : (1 : ℚ) ≤ (colTotal pairs b₂ : ℚ) := by
    exact_mod_cast colTotal_pos pairs hb₂
  have hR1 : (rowTotal pairs a₁ : ℚ) = (obs pairs a₁ b₁ : ℚ) + (obs pairs a₁ b₂ : ℚ) := by
    have := sum_obs_row pairs a₁
    rw [hBeq, Finset.sum_pair hbne] at this
    exact_mod_cast this.symm
  have hR2 : (rowTotal pairs a₂ : ℚ) = (obs pairs a₂ b₁ : ℚ) + (obs pairs a₂ b₂ : ℚ) := by
    have := sum_obs_row pairs a₂
    rw [hBeq, Finset.sum_pair hbne] at this
    exact_mod_cast this.symm
  have hC1 : (colTotal pairs b₁ : ℚ) = (obs pairs a₁ b₁ : ℚ) + (obs pairs a₂ b₁ : ℚ) := by
    have := sum_obs_col pairs b₁
    rw [hAeq, Finset.sum_pair hane] at this
    exact_mod_cast this.symm
  have hC2 : (colTotal pairs b₂ : ℚ) = (obs pairs a₁ b₂ : ℚ) + (obs pairs a₂ b₂ : ℚ) := by
    have := sum_obs_col pairs b₂
    rw [hAeq, Finset.sum_pair hane] at this
    exact_mod_cast this.symm
  have hntot : (nObs pairs : ℚ) = (rowTotal pairs a₁ : ℚ) + (rowTotal pairs a₂ : ℚ) := by
    have := sum_rowTotal pairs
    rw [hAeq, Finset.sum_pair hane] at this
    exact_mod_cast this.symm
  have hnpos : (0 : ℚ) < (nObs pairs : ℚ) := by rw [hntot]; linarith
  have hne : pairs ≠ [] := by
    intro h
    rw [h] at hnpos
    simp [nObs] at hnpos
  have hE11 : expectedFreq pairs a₁ b₁
      = (rowTotal pairs a₁ : ℚ) * (colTotal pairs b₁ : ℚ) / (nObs pairs : ℚ) := rfl
  have hE12 : expectedFreq pairs a₁ b₂
      = (rowTotal pairs a₁ : ℚ) * (colTotal pairs b₂ : ℚ) / (nObs pairs : ℚ) := rfl
  have hE21 : expectedFreq pairs a₂ b₁
      = (rowTotal pairs a₂ : ℚ) * (colTotal pairs b₁ : ℚ) / (nObs pairs : ℚ) := rfl
  have hE22 : expectedFreq pairs a₂ b₂
      = (rowTotal pairs a₂ : ℚ) * (colTotal pairs b₂ : ℚ) / (nObs pairs : ℚ) := rfl
  have hEp11 := expectedFreq_pos pairs ha₁ hb₁
  have hEp12 := expectedFreq_pos pairs ha₁ hb₂
  have hEp21 := expectedFreq_pos pairs ha₂ hb₁
  have hEp22 := expectedFreq_pos pairs ha₂ hb₂
  have hP := pearsonChi2_le_rows pairs hne
  rw [hA] at hP
  have hyates0 : yatesChi2 pairs
      = yatesAdj ((obs pairs a₁ b₁ : ℚ) - expectedFreq pairs a₁ b₁) / expectedFreq pairs a₁ b₁
        + (yatesAdj ((obs pairs a₁ b₂ : ℚ) - expectedFreq pairs a₁ b₂) / expectedFreq pairs a₁ b₂
        + (yatesAdj ((obs pairs a₂ b₁ : ℚ) - expectedFreq pairs a₂ b₁) / expectedFreq pairs a₂ b₁
        + yatesAdj ((obs pairs a₂ b₂ : ℚ) - expectedFreq pairs a₂ b₂) / expectedFreq pairs a₂ b₂)) := by
    rw [yatesChi2, hAeq, Finset.sum_pair hane, hBeq, Finset.sum_pair hbne,
      Finset.sum_pair hbne]
    ring
  have hpears0 : pearsonChi2 pairs
      = ((obs pairs a₁ b₁ : ℚ) - expectedFreq pairs a₁ b₁) ^ 2 / expectedFreq pairs a₁ b₁
        + (((obs pairs a₁ b₂ : ℚ) - expectedFreq pairs a₁ b₂) ^ 2 / expectedFreq pairs a₁ b₂
        + (((obs pairs a₂ b₁ : ℚ) - expectedFreq pairs a₂ b₁) ^ 2 / expectedFreq pairs a₂ b₁
        + ((obs pairs a₂ b₂ : ℚ) - expectedFreq pairs a₂ b₂) ^ 2 / expectedFreq pairs a₂ b₂)) := by
    rw [pearsonChi2, hAeq, Finset.sum_pair hane, hBeq, Finset.sum_pair hbne,
      Finset.sum_pair hbne]
    ring
  -- the four deviations share a single magnitude |D| / n
  obtain ⟨D, hD⟩ : ∃ D : ℚ,
      D = (obs pairs a₁ b₁ : ℚ) * (obs pairs a₂ b₂ : ℚ)
        - (obs pairs a₁ b₂ : ℚ) * (obs pairs a₂ b₁ : ℚ) := ⟨_, rfl⟩
  have habcd : (nObs pairs : ℚ)
      = (obs pairs a₁ b₁ : ℚ) + (obs pairs a₁ b₂ : ℚ)
        + (obs pairs a₂ b₁ : ℚ) + (obs pairs a₂ b₂ : ℚ) := by
    rw [hntot, hR1, hR2]; ring
  have hd11 : (obs pairs a₁ b₁ : ℚ) - expectedFreq pairs a₁ b₁ = D / (nObs pairs : ℚ) := by
    rw [hE11, hR1, hC1, hD, eq_div_iff hnpos.ne', sub_mul,
      div_mul_cancel₀ _ hnpos.ne', habcd]
    ring
  have hd12 : (obs pairs a₁ b₂ : ℚ) - expectedFreq pairs a₁ b₂ = -(D / (nObs pairs : ℚ)) := by
    rw [hE12, hR1, hC2, hD, ← neg_div, eq_div_iff hnpos.ne', sub_mul,
      div_mul_cancel₀ _ hnpos.ne', habcd]
    ring
  have hd21 : (obs pairs a₂ b₁ : ℚ) - expectedFreq pairs a₂ b₁ = -(D / (nObs pairs : ℚ)) := by
    rw [hE21, hR2, hC1, hD, ← neg_div, eq_div_iff hnpos.ne', sub_mul,
      div_mul_cancel₀ _ hnpos.ne', habcd]
    ring
  have hd22 : (obs pairs a₂ b₂ : ℚ) - expectedFreq pairs a₂ b₂ = D / (nObs pairs : ℚ) := by
    rw [hE22, hR2, hC2, hD, eq_div_iff hnpos.ne', sub_mul,
      div_mul_cancel₀ _ hnpos.ne', habcd]
    ring
  have hyates : yatesChi2 pairs
      = yatesAdj (D / (nObs pairs : ℚ)) / expectedFreq pairs a₁ b₁
        + (yatesAdj (D / (nObs pairs : ℚ)) / expectedFreq pairs a₁ b₂
        + (yatesAdj (D / (nObs pairs : ℚ)) / expectedFreq pairs a₂ b₁
        + yatesAdj (D / (nObs pairs : ℚ)) / expectedFreq pairs a₂ b₂)) := by
    rw [hyates0, hd11, hd12, hd21, hd22, yatesAdj_neg]
  rcases le_total (1 / 2) (|D / (nObs pairs : ℚ)|) with hcase | hcase
  · -- the corrected cells are below the Pearson cells: use the Pearson bound
    have hsq := yatesAdj_le_sq hcase
    have t11 := div_le_div_same_pos hsq hEp11
    have t12 := div_le_div_same_pos hsq hEp12
    have t21 := div_le_div_same_pos hsq hEp21
    have t22 := div_le_div_same_pos hsq hEp22
    have hpears : pearsonChi2 pairs
        = (D / (nObs pairs : ℚ)) ^ 2 / expectedFreq pairs a₁ b₁
          + ((D / (nObs pairs : ℚ)) ^ 2 / expectedFreq pairs a₁ b₂
          + ((D / (nObs pairs : ℚ)) ^ 2 / expectedFreq pairs a₂ b₁
          + (D / (nObs pairs : ℚ)) ^ 2 / expectedFreq pairs a₂ b₂)) := by
      rw [hpears0, hd11, hd12, hd21, hd22, neg_sq]
    norm_num at hP
    rw [hyates]
    rw [hpears] at hP
    linarith
  · -- small determinant: every corrected cell is at most (1/4)/E ≤ n/4
    have hq := yatesAdj_le_quarter hcase
    have hcell : ∀ R C : ℚ, 1 ≤ R → 1 ≤ C →
        yatesAdj (D / (nObs pairs : ℚ)) / (R * C / (nObs pairs : ℚ))
          ≤ (nObs pairs : ℚ) / 4 := by
      intro R C hR hC
      have hRC : (1 : ℚ) ≤ R * C := by
        have h := mul_le_mul hR hC zero_le_one (le_trans zero_le_one hR)
        simpa using h
      have hRCpos : (0 : ℚ) < R * C := lt_of_lt_of_le one_pos hRC
      have hEpos : (0 : ℚ) < R * C / (nObs pairs : ℚ) := div_pos hRCpos hnpos
      calc yatesAdj (D / (nObs pairs : ℚ)) / (R * C / (nObs pairs : ℚ))
          ≤ (1 / 4) / (R * C / (nObs pairs : ℚ)) := div_le_div_same_pos hq hEpos
        _ = (nObs pairs : ℚ) / (4 * (R * C)) := by
            rw [div_div_eq_mul_div,
              div_eq_div_iff hRCpos.ne' (show (4 * (R * C) : ℚ) ≠ 0 by positivity)]
            ring
        _ ≤ (nObs pairs : ℚ) / 4 := by
            rw [div_le_div_iff₀ (by positivity) (by norm_num)]
            have h4 : (4 : ℚ) ≤ 4 * (R * C) := by linarith
            exact mul_le_mul_of_nonneg_left h4 hnpos.le
    have t11 := hcell _ _ hR₁one hC₁one
    have t12 := hcell _ _ hR₁one hC₂one
    have t21 := hcell _ _ hR₂one hC₁one
    have t22 := hcell _ _ hR₂one hC₂one
    rw [← hE11] at t11
    rw [← hE12] at t12
    rw [← hE21] at t21
    rw [← hE22] at t22
    rw [hyates]
    linarith

end YatesBound

section CramerRange

variable {α β : Type*} [DecidableEq α] [DecidableEq β]

lemma chi2Stat_nonneg (pairs : List (α × β)) : 0 ≤ chi2Stat pairs := by
  rw [chi2Stat]
  split
  · exact le_refl 0
  · split
    · exact yatesChi2_nonneg pairs
    · exact pearsonChi2_nonneg pairs

lemma valsA_card_pos (pairs : List (α × β)) (h : 1 ≤ (valsA pairs).card) :
    pairs ≠ [] := by
  intro hnil
  rw [hnil] at h
  simp [valsA] at h

/-- The statistic returned by `chi2_contingency` never exceeds
`n * min(rows - 1, cols - 1)`, Yates correction included. -/
lemma chi2Stat_le (pairs : List (α × β))
    (h2a : 2 ≤ (valsA pairs).card) (h2b : 2 ≤ (valsB pairs).card) :
    chi2Stat pairs ≤ (nObs pairs : ℚ) * (minDim pairs : ℚ) := by
  have hne : pairs ≠ [] := valsA_card_pos pairs (by omega)
  have hmin : ((minDim pairs : ℕ) : ℚ)
      = min ((valsA pairs).card : ℚ) ((valsB pairs).card : ℚ) - 1 := by
    rw [minDim, Nat.cast_sub (by omega), Nat.cast_min, Nat.cast_one]
  rw [chi2Stat]
  split
  · next h0 =>
    exfalso
    rw [dofC] at h0
    rcases Nat.mul_eq_zero.mp h0 with h | h <;> omega
  · split
    · next _ h1 =>
      rw [dofC] at h1
      have hcards : (valsA pairs).card = 2 ∧ (valsB pairs).card = 2 := by
        have h1a := Nat.eq_one_of_mul_eq_one_right h1
        have h1b := Nat.eq_one_of_mul_eq_one_left h1
        omega
      have hy := yatesChi2_le pairs hcards.1 hcards.2
      have hmd : minDim pairs = 1 := by
        rw [minDim, hcards.1, hcards.2]
        omega
      rw [hmd]
      simpa using hy
    · rw [hmin]
      rcases le_total ((valsA pairs).card : ℚ) ((valsB pairs).card : ℚ) with hle | hle
      · rw [min_eq_left hle]
        exact pearsonChi2_le_rows pairs hne
      · rw [min_eq_right hle]
        exact pearsonChi2_le_cols pairs hne

/-- The Cramér V value as computed by the engine is nonnegative. -/
lemma cramersV_nonneg (pairs : List (α × β)) : 0 ≤ cramersV pairs := by
  rw [cramersV]
  split
  · exact Real.sqrt_nonneg _
  · exact le_refl 0

/-- The Cramér V value as computed by the engine is at most one. -/
lemma cramersV_le_one (pairs : List (α × β)) : cramersV pairs ≤ 1 := by
  rw [cramersV]
  split
  · next hmd =>
    have h2 : 2 ≤ min (valsA pairs).card (valsB pairs).card := by
      rw [minDim] at hmd
      omega
    have h2a : 2 ≤ (valsA pairs).card := le_trans h2 (Nat.min_le_left _ _)
    have h2b : 2 ≤ (valsB pairs).card := le_trans h2 (Nat.min_le_right _ _)
    have hne : pairs ≠ [] := valsA_card_pos pairs (by omega)
    have hn : (0 : ℚ) < (nObs pairs : ℚ) := by exact_mod_cast nObs_pos pairs hne
    have hq : chi2Stat pairs ≤ (nObs pairs : ℚ) * (minDim pairs : ℚ) :=
      chi2Stat_le pairs h2a h2b
    have hdenom : (0 : ℝ) < (nObs pairs : ℝ) * (minDim pairs : ℝ) := by
      have hmdr : (0 : ℝ) < (minDim pairs : ℝ) := by exact_mod_cast hmd
      have hnr : (0 : ℝ) < (nObs pairs : ℝ) := by exact_mod_cast nObs_pos pairs hne
      exact mul_pos hnr hmdr
    have harg : ((chi2Stat pairs : ℚ) : ℝ) / ((nObs pairs : ℝ) * (minDim pairs : ℝ)) ≤ 1 := by
      rw [div_le_one hdenom]
      have : ((chi2Stat pairs : ℚ) : ℝ) ≤ (((nObs pairs : ℚ) * (minDim pairs : ℚ) : ℚ) : ℝ) := by
        exact_mod_cast hq
      calc ((chi2Stat pairs : ℚ) : ℝ)
          ≤ (((nObs pairs : ℚ) * (minDim pairs : ℚ) : ℚ) : ℝ) := this
        _ = (nObs pairs : ℝ) * (minDim pairs : ℝ) := by push_cast; ring
    calc Real.sqrt (((chi2Stat pairs : ℚ) : ℝ) / ((nObs pairs : ℝ) * (minDim pairs : ℝ)))
        ≤ Real.sqrt 1 := Real.sqrt_le_sqrt harg
      _ = 1 := Real.sqrt_one
  · norm_num

end CramerRange

/-! ## Claim theorems -/

lemma colPairs_swap (df : List (String → String)) (a b : String) :
    colPairs df b a = (colPairs df a b).map Prod.swap := by
  simp [colPairs, List.map_map, Function.comp_def]

lemma normality_cond_iff (o : Oracle) (d1 d2 : List ℚ) :
    ((if d1.length < 5000 then o.shapiro_p d1 else 1) ≠ 0
      ∧ (if d2.length < 5000 then o.shapiro_p d2 else 1) ≠ 0
      ∧ (if d1.length < 5000 then o.shapiro_p d1 else 1) > 0.05
      ∧ (if d2.length < 5000 then o.shapiro_p d2 else 1) > 0.05)
    ↔ ((5000 ≤ d1.length ∨ 0.05 < o.shapiro_p d1)
        ∧ (5000 ≤ d2.length ∨ 0.05 < o.shapiro_p d2)) := by
  constructor
  · rintro ⟨_, _, h3, h4⟩
    constructor
    · by_cases h : d1.length < 5000
      · rw [if_pos h] at h3
        exact Or.inr h3
      · exact Or.inl (by omega)
    · by_cases h : d2.length < 5000
      · rw [if_pos h] at h4
        exact Or.inr h4
      · exact Or.inl (by omega)
  · rintro ⟨h1, h2⟩
    have e1 : (if d1.length < 5000 then o.shapiro_p d1 else 1) > 0.05 := by
      by_cases h : d1.length < 5000
      · rw [if_pos h]
        rcases h1 with hlen | hp
        · omega
        · exact hp
      · rw [if_neg h]
        norm_num
    have e2 : (if d2.length < 5000 then o.shapiro_p d2 else 1) > 0.05 := by
      by_cases h : d2.length < 5000
      · rw [if_pos h]
        rcases h2 with hlen | hp
        · omega
        · exact hp
      · rw [if_neg h]
        norm_num
    exact ⟨ne_of_gt (lt_trans (by norm_num) e1), ne_of_gt (lt_trans (by norm_num) e2),
      e1, e2⟩

/-- **C1**: every result record of the three test operations carries
`is_significant = (p_value < 0.05)` with the threshold fixed at `0.05`,
whatever p-value the statistical library returns. -/
theorem C1_significance_flag {α β : Type*} [DecidableEq α] [DecidableEq β]
    (o : Oracle) (pairs : List (α × β)) (rows : List (String × Option ℚ))
    (g1 g2 : String) (arows : List (Option String × Option ℚ)) :
    ((perform_chi_square_test o pairs).is_significant
        ↔ (perform_chi_square_test o pairs).p_value < 0.05)
    ∧ ((perform_t_test o rows g1 g2).is_significant
        ↔ (perform_t_test o rows g1 g2).p_value < 0.05)
    ∧ ((perform_anova o arows).is_significant
        ↔ (perform_anova o arows).p_value < 0.05) := by
  refine ⟨?_, ?_, ?_⟩ <;>
    simp [perform_chi_square_test, perform_t_test, perform_anova]

/-- **C2**: `perform_t_test` picks its test exactly by the documented
decision procedure: a group counts as normal when its size is at least
5000 (normality check skipped) or its Shapiro p-value exceeds 0.05; both
normal and Levene p > 0.05 gives the equal-variance t-test, both normal
with Levene p ≤ 0.05 gives Welch, anything else gives Mann-Whitney U; the
returned statistic and p-value come from the selected test. -/
theorem C2_t_test_selection (o : Oracle) (rows : List (String × Option ℚ))
    (g1 g2 : String) :
    ((perform_t_test o rows g1 g2).test_type,
      (perform_t_test o rows g1 g2).statistic,
      (perform_t_test o rows g1 g2).p_value)
      = if (5000 ≤ (groupData rows g1).length ∨ 0.05 < o.shapiro_p (groupData rows g1))
            ∧ (5000 ≤ (groupData rows g2).length ∨ 0.05 < o.shapiro_p (groupData rows g2)) then
          if 0.05 < o.levene_p (groupData rows g1) (groupData rows g2) then
            ("T-test (varianzas iguales)",
              (o.ttest_eq (groupData rows g1) (groupData rows g2)).1,
              (o.ttest_eq (groupData rows g1) (groupData rows g2)).2)
          else
            ("T-test de Welch (varianzas diferentes)",
              (o.ttest_welch (groupData rows g1) (groupData rows g2)).1,
              (o.ttest_welch (groupData rows g1) (groupData rows g2)).2)
        else
          ("Mann-Whitney U",
            (o.mannwhitney (groupData rows g1) (groupData rows g2)).1,
            (o.mannwhitney (groupData rows g1) (groupData rows g2)).2) := by
  have hiff := normality_cond_iff o (groupData rows g1) (groupData rows g2)
  by_cases hnorm : (5000 ≤ (groupData rows g1).length
        ∨ 0.05 < o.shapiro_p (groupData rows g1))
      ∧ (5000 ≤ (groupData rows g2).length ∨ 0.05 < o.shapiro_p (groupData rows g2))
  · have hcode := hiff.mpr hnorm
    by_cases hlev : 0.05 < o.levene_p (groupData rows g1) (groupData rows g2)
    · rw [if_pos hnorm, if_pos hlev]
      simp only [perform_t_test]
      rw [if_pos hcode, if_pos hlev]
    · rw [if_pos hnorm, if_neg hlev]
      simp only [perform_t_test]
      rw [if_pos hcode, if_neg hlev]
  · have hcode := fun h => hnorm (hiff.mp h)
    rw [if_neg hnorm]
    simp only [perform_t_test]
    rw [if_neg hcode]

/-- **C3**: the Cramér V value of the engine is `sqrt(chi2 / (n * min(r-1, c-1)))`,
guarded to `0` when `min(r-1, c-1) = 0` (e.g. a single observed value in
either variable) instead of raising, and always lies in `[0, 1]`. -/
theorem C3_cramers_v_range {α β : Type*} [DecidableEq α] [DecidableEq β]
    (o : Oracle) (pairs : List (α × β)) (hne : pairs ≠ []) :
    ((perform_chi_square_test o pairs).cramers_v
        = if 0 < minDim pairs then
            Real.sqrt (((chi2Stat pairs : ℚ) : ℝ)
              / ((nObs pairs : ℝ) * (minDim pairs : ℝ)))
          else 0)
    ∧ (minDim pairs = 0 → (perform_chi_square_test o pairs).cramers_v = 0)
    ∧ 0 ≤ (perform_chi_square_test o pairs).cramers_v
    ∧ (perform_chi_square_test o pairs).cramers_v ≤ 1 := by
  refine ⟨rfl, ?_, cramersV_nonneg pairs, cramersV_le_one pairs⟩
  intro h0
  show cramersV pairs = 0
  rw [cramersV, h0]
  simp

/-- Witness for C3 at a concrete one-row data set. -/
theorem C3_cramers_v_range_witness :
    ([(("a", "x") : String × String)] ≠ [])
      ∧ 0 ≤ (perform_chi_square_test trivOracle
          [(("a", "x") : String × String)]).cramers_v
      ∧ (perform_chi_square_test trivOracle
          [(("a", "x") : String × String)]).cramers_v ≤ 1 := by
  refine ⟨by simp, ?_⟩
  exact (C3_cramers_v_range trivOracle [("a", "x")] (by simp)).2.2

/-- **C10**: `perform_chi_square_test` is symmetric in its two column
arguments: swapping `var1` and `var2` transposes the contingency table and
leaves the statistic, p-value, degrees of freedom, the Cramér V value,
significance flag and effect-size label unchanged. -/
theorem C10_chi_square_symmetric (o : Oracle) (df : List (String → String))
    (a b : String) :
    ((perform_chi_square_test o (colPairs df a b)).chi2_statistic
        = (perform_chi_square_test o (colPairs df b a)).chi2_statistic)
    ∧ ((perform_chi_square_test o (colPairs df a b)).p_value
        = (perform_chi_square_test o (colPairs df b a)).p_value)
    ∧ ((perform_chi_square_test o (colPairs df a b)).degrees_of_freedom
        = (perform_chi_square_test o (colPairs df b a)).degrees_of_freedom)
    ∧ ((perform_chi_square_test o (colPairs df a b)).cramers_v
        = (perform_chi_square_test o (colPairs df b a)).cramers_v)
    ∧ ((perform_chi_square_test o (colPairs df a b)).is_significant
        = (perform_chi_square_test o (colPairs df b a)).is_significant)
    ∧ ((perform_chi_square_test o (colPairs df a b)).effect_size
        = (perform_chi_square_test o (colPairs df b a)).effect_size) := by
  have hs : colPairs df b a = (colPairs df a b).map Prod.swap := colPairs_swap df a b
  refine ⟨?_, ?_, ?_, ?_, ?_, ?_⟩
  · show chi2Stat (colPairs df a b) = chi2Stat (colPairs df b a)
    rw [hs, chi2Stat_swap]
  · show chi2P o (colPairs df a b) = chi2P o (colPairs df b a)
    rw [hs, chi2P_swap]
  · show dofC (colPairs df a b) = dofC (colPairs df b a)
    rw [hs, dofC_swap]
  · show cramersV (colPairs df a b) = cramersV (colPairs df b a)
    rw [hs, cramersV_swap]
  · show decide (chi2P o (colPairs df a b) < 0.05)
        = decide (chi2P o (colPairs df b a) < 0.05)
    rw [hs, chi2P_swap]
  · show interpret_cramers_v (cramersV (colPairs df a b))
        = interpret_cramers_v (cramersV (colPairs df b a))
    rw [hs, cramersV_swap]

lemma cohens_d_field (o : Oracle) (rows : List (String × Option ℚ)) (g1 g2 : String) :
    (perform_t_test o rows g1 g2).cohens_d
      = cohensD (groupData rows g1) (groupData rows g2) := rfl

lemma cohensD_of_some {xs ys : List ℚ} {v m1 m2 : ℚ}
    (hv : pooledVar xs ys = some v) (hm1 : meanOpt xs = some m1)
    (hm2 : meanOpt ys = some m2) :
    cohensD xs ys
      = if 0 < Real.sqrt (v : ℝ) then ((m1 - m2 : ℚ) : ℝ) / Real.sqrt (v : ℝ) else 0 := by
  rw [cohensD, hv, hm1, hm2]

lemma cohensD_of_none {xs ys : List ℚ} (hv : pooledVar xs ys = none) :
    cohensD xs ys = 0 := by
  rw [cohensD, hv]

/-- **C4 (counterexample)**: on the dataset with group `a = [1, 1]` and
group `b = [2, 2]` both sample deviations are `0`, so the guard returns
`cohens_d = 0` although the group means differ (`1 < 2`): the sign of
`cohens_d` does not always equal the sign of `mean1 - mean2`. -/
theorem C4_cohens_d_counterexample :
    (perform_t_test trivOracle
        [("a", some 1), ("a", some 1), ("b", some 2), ("b", some 2)] "a" "b").mean_group1
      = some 1
    ∧ (perform_t_test trivOracle
        [("a", some 1), ("a", some 1), ("b", some 2), ("b", some 2)] "a" "b").mean_group2
      = some 2
    ∧ (perform_t_test trivOracle
        [("a", some 1), ("a", some 1), ("b", some 2), ("b", some 2)] "a" "b").cohens_d
      = 0 := by
  have hga : groupData [("a", some 1), ("a", some 1), ("b", some 2), ("b", some 2)] "a"
      = [1, 1] := rfl
  have hgb : groupData [("a", some 1), ("a", some 1), ("b", some 2), ("b", some 2)] "b"
      = [2, 2] := rfl
  have hm1 : meanOpt
      (groupData [("a", some 1), ("a", some 1), ("b", some 2), ("b", some 2)] "a")
      = some 1 := by rw [hga]; norm_num [meanOpt]
  have hm2 : meanOpt
      (groupData [("a", some 1), ("a", some 1), ("b", some 2), ("b", some 2)] "b")
      = some 2 := by rw [hgb]; norm_num [meanOpt]
  have hs1 : sampleVar
      (groupData [("a", some 1), ("a", some 1), ("b", some 2), ("b", some 2)] "a")
      = some 0 := by rw [hga]; norm_num [sampleVar]
  have hs2 : sampleVar
      (groupData [("a", some 1), ("a", some 1), ("b", some 2), ("b", some 2)] "b")
      = some 0 := by rw [hgb]; norm_num [sampleVar]
  have hv : pooledVar
      (groupData [("a", some 1), ("a", some 1), ("b", some 2), ("b", some 2)] "a")
      (groupData [("a", some 1), ("a", some 1), ("b", some 2), ("b", some 2)] "b")
      = some 0 := by rw [pooledVar, hs1, hs2]; norm_num
  refine ⟨hm1, hm2, ?_⟩
  rw [cohens_d_field, cohensD_of_some hv hm1 hm2]
  norm_num

/-- **C4 (amended)**: `cohens_d` is `(mean1 - mean2) / pooled_std` with
`pooled_std = sqrt((std1² + std2²)/2)` whenever that deviation is positive,
and `0` when it is zero or undefined (NaN); consequently the sign of
`cohens_d` matches the sign of `mean1 - mean2` *whenever `pooled_std > 0`*;
the `effect_size` label is always the fixed bucketing of `|cohens_d|`. -/
theorem C4_cohens_d_amended (o : Oracle) (rows : List (String × Option ℚ))
    (g1 g2 : String) :
    (∀ v m1 m2 : ℚ,
      pooledVar (groupData rows g1) (groupData rows g2) = some v →
      meanOpt (groupData rows g1) = some m1 →
      meanOpt (groupData rows g2) = some m2 →
        (0 < v →
          (perform_t_test o rows g1 g2).cohens_d
              = ((m1 - m2 : ℚ) : ℝ) / Real.sqrt (v : ℝ)
            ∧ (m2 < m1 → 0 < (perform_t_test o rows g1 g2).cohens_d)
            ∧ (m1 < m2 → (perform_t_test o rows g1 g2).cohens_d < 0)
            ∧ (m1 = m2 → (perform_t_test o rows g1 g2).cohens_d = 0))
        ∧ (v = 0 → (perform_t_test o rows g1 g2).cohens_d = 0))
    ∧ (pooledVar (groupData rows g1) (groupData rows g2) = none →
        (perform_t_test o rows g1 g2).cohens_d = 0)
    ∧ (perform_t_test o rows g1 g2).effect_size
        = interpret_cohens_d |(perform_t_test o rows g1 g2).cohens_d| := by
  refine ⟨?_, ?_, rfl⟩
  · intro v m1 m2 hv hm1 hm2
    constructor
    · intro hvpos
      have hsq : (0 : ℝ) < Real.sqrt (v : ℝ) :=
        Real.sqrt_pos.mpr (by exact_mod_cast hvpos)
      have hval : (perform_t_test o rows g1 g2).cohens_d
          = ((m1 - m2 : ℚ) : ℝ) / Real.sqrt (v : ℝ) := by
        rw [cohens_d_field, cohensD_of_some hv hm1 hm2, if_pos hsq]
      refine ⟨hval, ?_, ?_, ?_⟩
      · intro hlt
        rw [hval]
        apply div_pos _ hsq
        have : (0 : ℚ) < m1 - m2 := by linarith
        exact_mod_cast this
      · intro hlt
        rw [hval]
        apply div_neg_of_neg_of_pos _ hsq
        have : m1 - m2 < (0 : ℚ) := by linarith
        exact_mod_cast this
      · intro heq
        rw [hval, heq]
        simp
    · intro hv0
      rw [cohens_d_field, cohensD_of_some hv hm1 hm2, hv0]
      simp
  · intro hnone
    rw [cohens_d_field, cohensD_of_none hnone]

/-- Witness for the amended C4 on group `a = [1, 3]`, group `b = [4, 4]`:
the pooled deviation is `1 > 0`, the means are `2 < 4`, and the returned
`cohens_d` is negative. -/
theorem C4_cohens_d_amended_witness :
    pooledVar (groupData [("a", some 1), ("a", some 3), ("b", some 4), ("b", some 4)] "a")
        (groupData [("a", some 1), ("a", some 3), ("b", some 4), ("b", some 4)] "b")
      = some 1
    ∧ (perform_t_test trivOracle
        [("a", some 1), ("a", some 3), ("b", some 4), ("b", some 4)] "a" "b").cohens_d < 0 := by
  have hga : groupData [("a", some 1), ("a", some 3), ("b", some 4), ("b", some 4)] "a"
      = [1, 3] := rfl
  have hgb : groupData [("a", some 1), ("a", some 3), ("b", some 4), ("b", some 4)] "b"
      = [4, 4] := rfl
  have hs1 : sampleVar
      (groupData [("a", some 1), ("a", some 3), ("b", some 4), ("b", some 4)] "a")
      = some 2 := by rw [hga]; norm_num [sampleVar]
  have hs2 : sampleVar
      (groupData [("a", some 1), ("a", some 3), ("b", some 4), ("b", some 4)] "b")
      = some 0 := by rw [hgb]; norm_num [sampleVar]
  have hv : pooledVar
      (groupData [("a", some 1), ("a", some 3), ("b", some 4), ("b", some 4)] "a")
      (groupData [("a", some 1), ("a", some 3), ("b", some 4), ("b", some 4)] "b")
      = some 1 := by rw [pooledVar, hs1, hs2]; norm_num
  have hm1 : meanOpt
      (groupData [("a", some 1), ("a", some 3), ("b", some 4), ("b", some 4)] "a")
      = some 2 := by rw [hga]; norm_num [meanOpt]
  have hm2 : meanOpt
      (groupData [("a", some 1), ("a", some 3), ("b", some 4), ("b", some 4)] "b")
      = some 4 := by rw [hgb]; norm_num [meanOpt]
  refine ⟨hv, ?_⟩
  exact ((((C4_cohens_d_amended trivOracle
      [("a", some 1), ("a", some 3), ("b", some 4), ("b", some 4)] "a" "b").1
      1 2 4 hv hm1 hm2).1 (by norm_num)).2.2.1 (by norm_num))

lemma length_mul_listMean (xs : List ℚ) : (xs.length : ℚ) * listMean xs = xs.sum := by
  rcases xs with _ | ⟨y, t⟩
  · simp [listMean]
  · rw [listMean, mul_comm, div_mul_cancel₀]
    exact Nat.cast_ne_zero.mpr (by simp)

lemma sq_shift (xs : List ℚ) (μ m : ℚ) :
    (xs.map fun x => (x - m) ^ 2).sum
      = (xs.map fun x => (x - μ) ^ 2).sum
        + (μ - m) * (2 * xs.sum - (xs.length : ℚ) * (μ + m)) := by
  induction xs with
  | nil => simp
  | cons y t ih =>
    simp only [List.map_cons, List.sum_cons, List.length_cons, ih]
    push_cast
    ring

/-- Steiner decomposition: the sum of squares about any point `m` splits
into the sum of squares about the sample mean plus `n * (mean - m)²`. -/
lemma sq_decomp (xs : List ℚ) (m : ℚ) :
    (xs.map fun x => (x - m) ^ 2).sum
      = (xs.map fun x => (x - listMean xs) ^ 2).sum
        + (xs.length : ℚ) * (listMean xs - m) ^ 2 := by
  rw [sq_shift xs (listMean xs) m]
  have h := length_mul_listMean xs
  linear_combination (2 * (m - listMean xs)) * h

lemma ssBetween_nonneg (rows : List (Option String × Option ℚ)) :
    0 ≤ ssBetween rows := by
  apply List.sum_nonneg
  intro x hx
  rcases List.mem_map.mp hx with ⟨gv, _, rfl⟩
  positivity

lemma ssTotal_nonneg (rows : List (Option String × Option ℚ)) :
    0 ≤ ssTotal rows := by
  apply List.sum_nonneg
  intro x hx
  rcases List.mem_map.mp hx with ⟨gv, _, rfl⟩
  apply List.sum_nonneg
  intro y hy
  rcases List.mem_map.mp hy with ⟨z, _, rfl⟩
  positivity

/-- The between-group sum of squares never exceeds the total sum of
squares, whatever point the squares are taken about. -/
lemma ssBetween_le_ssTotal (rows : List (Option String × Option ℚ)) :
    ssBetween rows ≤ ssTotal rows := by
  rw [ssBetween, ssTotal]
  apply List.sum_le_sum
  intro gv hgv
  rw [sq_decomp gv.2 (grandMean rows)]
  have hnn : 0 ≤ (gv.2.map fun x => (x - listMean gv.2) ^ 2).sum := by
    apply List.sum_nonneg
    intro y hy
    rcases List.mem_map.mp hy with ⟨z, _, rfl⟩
    positivity
  linarith

lemma etaSquared_nonneg (rows : List (Option String × Option ℚ)) :
    0 ≤ etaSquared rows := by
  rw [etaSquared]
  split
  · next h => exact div_nonneg (ssBetween_nonneg rows) h.le
  · exact le_refl 0

lemma etaSquared_le_one (rows : List (Option String × Option ℚ)) :
    etaSquared rows ≤ 1 := by
  rw [etaSquared]
  split
  · next h => exact (div_le_one h).mpr (ssBetween_le_ssTotal rows)
  · norm_num

/-- **C5**: `perform_anova` returns
`eta_squared = ss_between / ss_total` over the per-group samples (missing
values dropped per group), `0` when `ss_total = 0`, and the value always
lies in `[0, 1]`.  The hypothesis keeps every group nonempty after
dropping, the regime in which the embedding is faithful (an all-missing
group would make the Python computation NaN). -/
theorem C5_eta_squared (o : Oracle) (rows : List (Option String × Option ℚ))
    (hg : ∀ gv ∈ anovaGroups rows, gv.2 ≠ []) :
    ((perform_anova o rows).eta_squared
        = if 0 < ssTotal rows then ssBetween rows / ssTotal rows else 0)
    ∧ (ssTotal rows = 0 → (perform_anova o rows).eta_squared = 0)
    ∧ 0 ≤ (perform_anova o rows).eta_squared
    ∧ (perform_anova o rows).eta_squared ≤ 1 := by
  have hfield : (perform_anova o rows).eta_squared = etaSquared rows := rfl
  refine ⟨rfl, ?_, ?_, ?_⟩
  · intro h0
    rw [hfield, etaSquared, h0]
    simp
  · rw [hfield]
    exact etaSquared_nonneg rows
  · rw [hfield]
    exact etaSquared_le_one rows

/-- Witness for C5 on groups `a = [1, 2]`, `b = [5]`. -/
theorem C5_eta_squared_witness :
    (∀ gv ∈ anovaGroups [(some "a", some 1), (some "a", some 2), (some "b", some 5)],
        gv.2 ≠ [])
    ∧ 0 ≤ (perform_anova trivOracle
        [(some "a", some 1), (some "a", some 2), (some "b", some 5)]).eta_squared
    ∧ (perform_anova trivOracle
        [(some "a", some 1), (some "a", some 2), (some "b", some 5)]).eta_squared ≤ 1 := by
  have hgrp : anovaGroups [(some "a", some 1), (some "a", some 2), (some "b", some 5)]
      = [("a", [1, 2]), ("b", [5])] := rfl
  have hg : ∀ gv ∈ anovaGroups [(some "a", some 1), (some "a", some 2), (some "b", some 5)],
      gv.2 ≠ [] := by
    rw [hgrp]
    intro gv hgv
    simp only [List.mem_cons, List.not_mem_nil, or_false] at hgv
    rcases hgv with rfl | rfl <;> simp
  exact ⟨hg, (C5_eta_squared trivOracle _ hg).2.2⟩

/-- **C6**: `calculate_proportion_ci` returns exactly `(0, 0)` when
`total = 0` without raising; for `total > 0` it returns the
normal-approximation interval `(p - z*se, p + z*se)` clipped so the lower
bound is at least `0` and the upper bound at most `1`; for
`successes = 0, total = 100` the lower bound is `0` and the upper bound is
nonnegative; for `successes = total > 0` the upper bound is `1` and the
lower bound lies in `[0, 1]`. -/
theorem C6_proportion_ci (o : Oracle) (s t : ℕ) (conf : ℚ) :
    (t = 0 → calculate_proportion_ci o s t conf = (0, 0))
    ∧ (0 < t → calculate_proportion_ci o s t conf
        = (max 0 ((((s : ℚ) / (t : ℚ) : ℚ) : ℝ)
              - o.norm_ppf (1 - (1 - conf) / 2)
                * Real.sqrt ((((s : ℚ) / (t : ℚ) : ℚ) : ℝ)
                    * (1 - (((s : ℚ) / (t : ℚ) : ℚ) : ℝ)) / (t : ℝ))),
            min 1 ((((s : ℚ) / (t : ℚ) : ℚ) : ℝ)
              + o.norm_ppf (1 - (1 - conf) / 2)
                * Real.sqrt ((((s : ℚ) / (t : ℚ) : ℚ) : ℝ)
                    * (1 - (((s : ℚ) / (t : ℚ) : ℚ) : ℝ)) / (t : ℝ)))))
    ∧ (0 < t → 0 ≤ (calculate_proportion_ci o s t conf).1
        ∧ (calculate_proportion_ci o s t conf).2 ≤ 1)
    ∧ ((calculate_proportion_ci o 0 100 conf).1 = 0
        ∧ 0 ≤ (calculate_proportion_ci o 0 100 conf).2)
    ∧ (0 < t → (calculate_proportion_ci o t t conf).2 = 1
        ∧ 0 ≤ (calculate_proportion_ci o t t conf).1
        ∧ (calculate_proportion_ci o t t conf).1 ≤ 1) := by
  refine ⟨?_, ?_, ?_, ?_, ?_⟩
  · intro h
    subst h
    rfl
  · intro ht
    rw [calculate_proportion_ci, if_neg (by omega)]
  · intro ht
    rw [calculate_proportion_ci, if_neg (by omega)]
    exact ⟨le_max_left _ _, min_le_left _ _⟩
  · have hp : ((0 : ℕ) : ℚ) / ((100 : ℕ) : ℚ) = 0 := by norm_num
    rw [calculate_proportion_ci, if_neg (by norm_num)]
    constructor
    · show max 0 _ = 0
      rw [hp]
      norm_num
    · show (0 : ℝ) ≤ min 1 _
      rw [hp]
      norm_num
  · intro ht
    have hp : ((t : ℚ)) / ((t : ℚ)) = 1 := by
      apply div_self
      exact_mod_cast ht.ne'
    rw [calculate_proportion_ci, if_neg (by omega)]
    refine ⟨?_, ?_, ?_⟩
    · show min 1 _ = 1
      rw [hp]
      norm_num
    · show (0 : ℝ) ≤ max 0 _
      exact le_max_left _ _
    · show max 0 _ ≤ 1
      rw [hp]
      norm_num

/-- Witness for C6 at `successes = 0`, `total = 100`, `confidence = 0.95`. -/
theorem C6_proportion_ci_witness :
    (0 < (100 : ℕ))
    ∧ 0 ≤ (calculate_proportion_ci trivOracle 0 100 0.95).1
    ∧ (calculate_proportion_ci trivOracle 0 100 0.95).2 ≤ 1 := by
  exact ⟨by norm_num, (C6_proportion_ci trivOracle 0 100 0.95).2.2.1 (by norm_num)⟩

lemma sum_map_filter_le {γ : Type*} (df : List γ) (q : γ → Bool) (f : γ → ℚ)
    (h : ∀ r ∈ df, 0 ≤ f r) :
    ((df.filter q).map f).sum ≤ (df.map f).sum := by
  induction df with
  | nil => simp
  | cons r rest ih =>
    have hr := h r (List.mem_cons_self r rest)
    have hrest : ∀ x ∈ rest, 0 ≤ f x := fun x hx => h x (List.mem_cons_of_mem r hx)
    simp only [List.filter_cons]
    split
    · simp only [List.map_cons, List.sum_cons]
      exact add_le_add_left (ih hrest) _
    · simp only [List.map_cons, List.sum_cons]
      have := ih hrest
      linarith

/-- **C7**: the business-metrics snapshot field
`estimated_occupancy_rate = (total room-nights - canceled room-nights) /
total room-nights`, is `0` when the total is `0` (no exception), and lies
in `[0, 1]` whenever all `total_stay_nights` are nonnegative and their sum
is positive. -/
theorem C7_occupancy_rate (df : List BookingRow)
    (h : ∀ r ∈ df, 0 ≤ r.total_stay_nights) :
    ((calculate_business_metrics df).estimated_occupancy_rate
        = if 0 < (df.map fun r => r.total_stay_nights).sum then
            ((df.map fun r => r.total_stay_nights).sum
              - ((df.filter fun r => r.is_canceled = 1).map
                  fun r => r.total_stay_nights).sum)
              / (df.map fun r => r.total_stay_nights).sum
          else 0)
    ∧ ((df.map fun r => r.total_stay_nights).sum = 0
        → (calculate_business_metrics df).estimated_occupancy_rate = 0)
    ∧ (0 < (df.map fun r => r.total_stay_nights).sum
        → 0 ≤ (calculate_business_metrics df).estimated_occupancy_rate
          ∧ (calculate_business_metrics df).estimated_occupancy_rate ≤ 1) := by
  have hocc : (calculate_business_metrics df).estimated_occupancy_rate
      = if 0 < (df.map fun r => r.total_stay_nights).sum then
          ((df.map fun r => r.total_stay_nights).sum
            - ((df.filter fun r => r.is_canceled = 1).map
                fun r => r.total_stay_nights).sum)
            / (df.map fun r => r.total_stay_nights).sum
        else 0 := rfl
  have hC_le : ((df.filter fun r => r.is_canceled = 1).map
      fun r => r.total_stay_nights).sum ≤ (df.map fun r => r.total_stay_nights).sum :=
    sum_map_filter_le df _ _ h
  have hC_nonneg : 0 ≤ ((df.filter fun r => r.is_canceled = 1).map
      fun r => r.total_stay_nights).sum := by
    apply List.sum_nonneg
    intro x hx
    rcases List.mem_map.mp hx with ⟨r, hr, rfl⟩
    exact h r (List.mem_of_mem_filter hr)
  refine ⟨hocc, ?_, ?_⟩
  · intro h0
    rw [hocc, h0]
    simp
  · intro hT
    rw [hocc, if_pos hT]
    constructor
    · apply div_nonneg _ hT.le
      linarith
    · rw [div_le_one hT]
      linarith

/-- Witness for C7 on a two-booking dataset (one canceled). -/
theorem C7_occupancy_rate_witness :
    (∀ r ∈ [(⟨"H", 1, 10, 50, 3⟩ : BookingRow), ⟨"H", 0, 5, 60, 2⟩],
        0 ≤ r.total_stay_nights)
    ∧ 0 < (([(⟨"H", 1, 10, 50, 3⟩ : BookingRow), ⟨"H", 0, 5, 60, 2⟩].map
        fun r => r.total_stay_nights).sum)
    ∧ 0 ≤ (calculate_business_metrics
        [(⟨"H", 1, 10, 50, 3⟩ : BookingRow), ⟨"H", 0, 5, 60, 2⟩]).estimated_occupancy_rate
    ∧ (calculate_business_metrics
        [(⟨"H", 1, 10, 50, 3⟩ : BookingRow), ⟨"H", 0, 5, 60, 2⟩]).estimated_occupancy_rate
      ≤ 1 := by
  have h : ∀ r ∈ [(⟨"H", 1, 10, 50, 3⟩ : BookingRow), ⟨"H", 0, 5, 60, 2⟩],
      0 ≤ r.total_stay_nights := by
    intro r hr
    simp only [List.mem_cons, List.not_mem_nil, or_false] at hr
    rcases hr with rfl | rfl <;> norm_num
  have hT : 0 < (([(⟨"H", 1, 10, 50, 3⟩ : BookingRow), ⟨"H", 0, 5, 60, 2⟩].map
      fun r => r.total_stay_nights).sum) := by
    norm_num
  exact ⟨h, hT, (C7_occupancy_rate _ h).2.2 hT⟩

/-- **C8**: `analyze_feature_importance` scores every categorical feature
by the Cramér V statistic against the target, every numeric feature by the absolute
point-biserial correlation after median imputation of missing values, and
returns the rows of the scored features sorted in descending order of
`importance_score`. -/
theorem C8_feature_importance (o : Oracle) (target : List ℚ)
    (features : List FeatureCol) :
    ((analyze_feature_importance o target features).Perm
        (features.map (scoreRow o target)))
    ∧ List.Sorted (fun a b : ImportanceRow => b.importance_score ≤ a.importance_score)
        (analyze_feature_importance o target features)
    ∧ (∀ name vals, scoreRow o target (FeatureCol.cat name vals)
        = { feature := name
            importance_score := (perform_chi_square_test o (vals.zip target)).cramers_v
            test_type := "Cramér\x27s V"
            interpretation := interpret_importance_score
              ((perform_chi_square_test o (vals.zip target)).cramers_v) })
    ∧ (∀ name vals, scoreRow o target (FeatureCol.num name vals)
        = { feature := name
            importance_score := |o.pointbiserial target (fillnaMedian vals)|
            test_type := "Correlación"
            interpretation := interpret_importance_score
              (|o.pointbiserial target (fillnaMedian vals)|) }) := by
  refine ⟨List.mergeSort_perm _ _, ?_, fun name vals => rfl, fun name vals => rfl⟩
  have htrans : ∀ a b c : ImportanceRow,
      decide (b.importance_score ≤ a.importance_score) = true →
      decide (c.importance_score ≤ b.importance_score) = true →
      decide (c.importance_score ≤ a.importance_score) = true := by
    intro a b c h1 h2
    simp only [decide_eq_true_eq] at h1 h2 ⊢
    exact le_trans h2 h1
  have htotal : ∀ a b : ImportanceRow,
      (decide (b.importance_score ≤ a.importance_score)
        || decide (a.importance_score ≤ b.importance_score)) = true := by
    intro a b
    simp only [Bool.or_eq_true, decide_eq_true_eq]
    exact le_total _ _
  have hp := List.sorted_mergeSort htrans htotal (features.map (scoreRow o target))
  refine List.Pairwise.imp ?_ hp
  intro a b hab
  simpa using hab

end UtilsStats
